import Mathlib

/-!
Verification of the Steno record/replay engine against its specification.

The JavaScript sources are shallowly embedded:
* selector generation (`services/recorder.js`: `getSelector`,
  `buildPositionalSelector`) over a rose-tree model of the DOM,
* the content-script recorder (`content.js`: `onInput`, `onClickCapture`)
  as state-transition functions over the captured-field buffer,
* the replay engine (`content.js`: `replayScript`, `setValue`,
  `waitForElement`) as a pure loop that also emits an explicit trace of
  its side effects (progress messages, clicks, value assignments,
  dispatched events, quiescence waits),
* the background coordinator (`background.js`: the `chrome.tabs.onUpdated`
  listener) as a transition function on the coordinator state.

DOM elements are abstracted to the attribute values the code reads
(`id`, `name`, `dataset.qa`, `tagName`, position under `<body>`);
document-level CSS queries (`document.querySelectorAll(sel).length`) and
`CSS.escape` are environment parameters, since the code only consumes
their results.
-/

/-- JavaScript `String.prototype.toLowerCase` restricted to the ASCII
tag/attribute names the sources apply it to. -/
def strToLower (s : String) : String := String.mk (s.data.map Char.toLower)

/-- `Array.prototype.join(sep)` on a list of strings. -/
def joinSep (sep : String) : List String → String
  | [] => ""
  | [x] => x
  | x :: y :: rest => x ++ sep ++ joinSep sep (y :: rest)

/-- A DOM element subtree: tag name (as stored in `tagName`, uppercase in
HTML documents) and child elements in document order. -/
inductive DomTree where
  | node (tag : String) (children : List DomTree)

/-- The `tagName` of the root of a subtree. -/
def DomTree.tag : DomTree → String
  | .node t _ => t

/-- The `children` (element children, in order) of the root of a subtree. -/
def DomTree.children : DomTree → List DomTree
  | .node _ cs => cs

/-- Navigate from a node along a path of child indices. -/
def nodeAt : DomTree → List Nat → Option DomTree
  | t, [] => some t
  | t, i :: rest =>
    match t.children.get? i with
    | some c => nodeAt c rest
    | none => none

/-- One level of `buildPositionalSelector`: for child `c` at index `i` of
`parent`, the JS computes `siblings = children.filter(same tagName)`; when
`siblings.length > 1` it emits `tag:nth-of-type(k)` with
`k = siblings.indexOf(current) + 1`, else the bare lowercase tag.  Since
DOM nodes are reference-distinct, `siblings.indexOf(current)` is the number
of same-tag children strictly before index `i`, which is how `k` is
computed here. -/
def levelSegment (parent : DomTree) (i : Nat) (c : DomTree) : String :=
  let sameTag := parent.children.filter (fun s => s.tag == c.tag)
  if 1 < sameTag.length then
    let k := ((parent.children.take i).filter (fun s => s.tag == c.tag)).length + 1
    strToLower c.tag ++ ":nth-of-type(" ++ toString k ++ ")"
  else
    strToLower c.tag

/-- The list of selector segments produced by `buildPositionalSelector` for
the element reached from `body` by `path`, in top-down order.  The JS walks
from the element up to (but not including) `document.body`, prepending each
level's segment with `parts.unshift`; walking the path top-down yields the
same list.  (The JS guard `if (parent)` is always taken here because every
element on the path has its parent on the path or is a child of `body`.) -/
def positionalParts : DomTree → List Nat → List String
  | _, [] => []
  | parent, i :: rest =>
    match parent.children.get? i with
    | some c => levelSegment parent i c :: positionalParts c rest
    | none => []

/-- `buildPositionalSelector` (recorder.js): segments joined with
`' > '` — `parts.join(' > ')` in the source. -/
def buildPositionalSelector (body : DomTree) (path : List Nat) : String :=
  joinSep " > " (positionalParts body path)

/-- Modelled from the spec: the positional selector as §4.1 item 4 words
it, with the segments joined "with a single-space descendant-combinator".
Used only to compare the spec's wording with the code. -/
def specDescendantSelector (body : DomTree) (path : List Nat) : String :=
  joinSep " " (positionalParts body path)

/-- The document-level environment `getSelector` consults: the element
tree under `<body>`, the result of `document.querySelectorAll(sel).length`
for each selector string, and `CSS.escape`. -/
structure Doc where
  body : DomTree
  queryCount : String → Nat
  cssEscape : String → String

/-- The attributes of a DOM element that `getSelector` reads.
`closestFormIndex` is the 0-based index, among all `<form>` elements in
document order, of `el.closest('form')` (`none` when there is no enclosing
form).  `path` is the element's position under `<body>` (child indices,
top-down), used by the positional fallback. -/
structure Elem where
  tagName : String
  id : String
  name : String
  dataQa : String
  closestFormIndex : Option Nat
  path : List Nat

/-- `getSelector` (recorder.js).  JS truthiness of `el.id`, `el.name` and
`el.dataset.qa` is "the string is non-empty".  Priority:
`#id` > `[name]` (unique, then form-scoped unique) > `[data-qa]` (unique)
> positional fallback with `fragile = true`. -/
def getSelector (doc : Doc) (el : Elem) : String × Bool :=
  let positional := (buildPositionalSelector doc.body el.path, true)
  let dataQaTier :=
    if el.dataQa ≠ "" then
      let sel := "[data-qa=\"" ++ el.dataQa ++ "\"]"
      if doc.queryCount sel = 1 then (sel, false) else positional
    else positional
  if el.id ≠ "" then
    ("#" ++ doc.cssEscape el.id, false)
  else if el.name ≠ "" then
    let sel := strToLower el.tagName ++ "[name=\"" ++ el.name ++ "\"]"
    if doc.queryCount sel = 1 then (sel, false)
    else
      match el.closestFormIndex with
      | some fi =>
        let scopedSel := "form:nth-of-type(" ++ toString (fi + 1) ++ ") " ++
          strToLower el.tagName ++ "[name=\"" ++ el.name ++ "\"]"
        if doc.queryCount scopedSel = 1 then (scopedSel, false) else dataQaTier
      | none => dataQaTier
  else dataQaTier

/-- A recorded JS value: fill values are strings, except checkbox values
which are the boolean checked state. -/
inductive JValue where
  | str (s : String)
  | bool (b : Bool)
deriving DecidableEq, Repr

/-- One captured step, mirroring the object literals built in
`content.js`.  Click steps carry no `value`/`type` key (`none` here);
`action` is the literal string stored in the object. -/
structure RStep where
  order : Nat
  action : String
  selector : String
  value : Option JValue
  type : Option String
  label : String
  fragile : Bool
deriving DecidableEq, Repr

/-- Placeholder step used with `List.getD` at indices already known to be
in bounds. -/
def dflStep : RStep :=
  { order := 0, action := "", selector := "", value := none,
    type := none, label := "", fragile := false }

/-- The content-script recorder's mutable state: the `recording` flag, the
`fieldOrder` counter and the `capturedFields` buffer. -/
structure RecState where
  recording : Bool
  fieldOrder : Nat
  capturedFields : List RStep
deriving DecidableEq, Repr

/-- An `input`/`change` event as `onInput` consumes it: the target's
`tagName`, and the results of the `Recorder` helpers applied to the
target (`getSelector`, `getFieldType`, `getValue`, `getLabel`), which are
pure functions of the DOM and are abstracted to their values here. -/
structure InputEvt where
  tagName : String
  selector : String
  fragile : Bool
  fieldType : String
  value : JValue
  label : String
deriving DecidableEq, Repr

/-- `isFormElement` (content.js). -/
def isFormElement (tagName : String) : Bool :=
  let tag := strToLower tagName
  tag == "input" || tag == "select" || tag == "textarea"

/-- Assign `{ f with value := v }` to the first step of the buffer whose
`selector` equals `sel` — the mutation `existing.value = value` performed
on the step returned by `capturedFields.find(...)`. -/
def updateFirstValue (sel : String) (v : JValue) : List RStep → List RStep
  | [] => []
  | f :: rest =>
    if f.selector == sel then { f with value := some v } :: rest
    else f :: updateFirstValue sel v rest

/-- `onInput` (content.js).  Dedupe: `capturedFields.find((f) =>
f.selector === selector)` — the match is on the selector alone; when a
match exists only its `value` is overwritten, otherwise a new fill step is
appended with the next `fieldOrder`.  (The HUD update and the
`FIELD_CAPTURED` message are UI side effects outside the buffer state.) -/
def onInput (st : RecState) (e : InputEvt) : RecState :=
  if st.recording = false then st
  else if isFormElement e.tagName = false then st
  else if (st.capturedFields.find? (fun f => f.selector == e.selector)).isSome then
    { st with capturedFields := updateFirstValue e.selector e.value st.capturedFields }
  else
    { st with
      fieldOrder := st.fieldOrder + 1,
      capturedFields := st.capturedFields ++
        [{ order := st.fieldOrder + 1, action := "fill", selector := e.selector,
           value := some e.value, type := some e.fieldType,
           label := e.label, fragile := e.fragile }] }

/-- A `click` event as `onClickCapture` consumes it.  `hasClickTarget` is
whether `e.target.closest(CLICK_TARGETS)` found a target; the remaining
fields describe that target (`tagName`, `(el.type || '')`, whether it is
inside a `<label>`, whether it is inside the recording HUD, and the
results of `getSelector`/`getClickLabel`). -/
structure ClickEvt where
  hasClickTarget : Bool
  tagName : String
  inputType : String
  insideLabel : Bool
  insideHud : Bool
  selector : String
  fragile : Bool
  label : String
deriving DecidableEq, Repr

/-- `onClickCapture` (content.js): skips form-element targets other than
submit/button inputs, label-wrapped targets and the HUD; otherwise appends
a click step with the next `fieldOrder`.  Click steps are never deduped. -/
def onClickCapture (st : RecState) (e : ClickEvt) : RecState :=
  if st.recording = false then st
  else if e.hasClickTarget = false then st
  else
    let tag := strToLower e.tagName
    let inputType := strToLower e.inputType
    if tag == "input" && !(inputType == "submit") && !(inputType == "button") then st
    else if tag == "label" || e.insideLabel then st
    else if e.insideHud then st
    else
      { st with
        fieldOrder := st.fieldOrder + 1,
        capturedFields := st.capturedFields ++
          [{ order := st.fieldOrder + 1, action := "click", selector := e.selector,
             value := none, type := none, label := e.label, fragile := e.fragile }] }

/-- The state of a located page element that `setValue` reads: its current
checked state (only consulted for checkboxes). -/
structure PageElem where
  checked : Bool
deriving DecidableEq, Repr

/-- One observable side effect of the replay engine, in the order the code
performs them.  `dispatch name bubbles` is `el.dispatchEvent(new
Event(name, { bubbles }))`; `assignChecked v` is the assignment
`el.checked = v`; `assignValue v native` is a value assignment, through
the prototype's native setter when `native = true`; `settle ms` is
`await waitForDomSettle(ms)`; `progress i` is the `REPLAY_PROGRESS`
message with `lastCompletedIndex = i`; `click i` is `el.click()` for the
step at sorted position `i`. -/
inductive Effect where
  | progress (i : Nat)
  | click (i : Nat)
  | assignChecked (v : Option JValue)
  | assignValue (v : Option JValue) (native : Bool)
  | dispatch (event : String) (bubbles : Bool)
  | settle (ms : Nat)
deriving DecidableEq, Repr

/-- JS strict equality `el.checked !== value`, negated: a boolean is
strictly equal to a JS value exactly when the value is the same boolean
(`'true' !== true` in JS, so a string value is never strictly equal). -/
def strictEqBoolVal (b : Bool) : Option JValue → Bool
  | some (.bool b2) => b == b2
  | _ => false

/-- `setValue` (content.js) as the list of effects it performs.
Checkbox: mutate and fire `change` then `input` only when the current
checked state differs (strictly) from the target.  Radio: always set
`checked = true`, fire `change` then `input`.  Select: plain `value`
assignment, fire `change` then `input`.  Default: assignment through the
native prototype `value` setter (the prototype descriptor always exists in
a browser), then fire `input` then `change`.  All events bubble. -/
def setValueEffects (el : PageElem) (value : Option JValue) (ty : Option String) : List Effect :=
  if ty == some "checkbox" then
    if strictEqBoolVal el.checked value then []
    else [.assignChecked value, .dispatch "change" true, .dispatch "input" true]
  else if ty == some "radio" then
    [.assignChecked (some (.bool true)), .dispatch "change" true, .dispatch "input" true]
  else if ty == some "select" then
    [.assignValue value false, .dispatch "change" true, .dispatch "input" true]
  else
    [.assignValue value true, .dispatch "input" true, .dispatch "change" true]

/-- `step.action || 'fill'` (content.js): an absent/empty action string
defaults to `fill`. -/
def actionOf (step : RStep) : String :=
  if step.action == "" then "fill" else step.action

/-- The warning string pushed on a resolution failure:
`` `${step.selector} (${step.label})` ``. -/
def warnOf (step : RStep) : String :=
  step.selector ++ " (" ++ step.label ++ ")"

/-- Accumulated replay results (content.js `results` object). -/
structure ReplayResults where
  filled : Nat
  clicked : Nat
  skipped : Nat
  warnings : List String
  lastIndex : Nat
deriving DecidableEq, Repr

/-- Stable insertion of a step into an already-sorted list, keeping the
earlier element first on equal `order` keys. -/
def insertStep (x : RStep) : List RStep → List RStep
  | [] => [x]
  | y :: ys => if x.order ≤ y.order then x :: y :: ys else y :: insertStep x ys

/-- `[...fields].sort((a, b) => a.order - b.order)`: a stable sort by
ascending `order`.  The ECMAScript contract of `Array.prototype.sort`
with this comparator is exactly "stably sorted by `order`", which this
stable insertion sort realizes. -/
def sortSteps : List RStep → List RStep
  | [] => []
  | x :: xs => insertStep x (sortSteps xs)

/-- The replay loop of `replayScript` (content.js).  `find i` is the
outcome of `await waitForElement(sorted[i].selector, 3000)` at iteration
`i` — `none` when the wait timed out, abstracted as an oracle because the
DOM may change between iterations.  The `fuel` argument is only a
structural-recursion bound: the loop body runs exactly while
`i < sorted.length`, and every caller passes `fuel ≥ sorted.length - i`
(see `replayLoop_eq`, which shows the result is then independent of
`fuel`). -/
def replayLoop (find : Nat → Option PageElem) (sorted : List RStep) :
    Nat → Nat → ReplayResults → List Effect → ReplayResults × List Effect
  | 0, _, res, eff => (res, eff)
  | fuel + 1, i, res, eff =>
    if i < sorted.length then
      let step := sorted.getD i dflStep
      match find i with
      | none =>
        replayLoop find sorted fuel (i + 1)
          { res with skipped := res.skipped + 1,
                     warnings := res.warnings ++ [warnOf step],
                     lastIndex := i } eff
      | some el =>
        if actionOf step == "click" then
          replayLoop find sorted fuel (i + 1)
            { res with clicked := res.clicked + 1, lastIndex := i }
            (eff ++ [.progress i, .click i, .settle 300])
        else
          replayLoop find sorted fuel (i + 1)
            { res with filled := res.filled + 1, lastIndex := i }
            (eff ++ (setValueEffects el step.value step.type ++ [.settle 150]))
    else (res, eff)

/-- `replayScript(fields, startIndex)` (content.js): sort a copy of the
input by `order`, then run the loop from `startIndex` with fresh results.
`sorted.length` fuel suffices for the whole loop. -/
def replayScript (find : Nat → Option PageElem) (fields : List RStep)
    (startIndex : Nat) : ReplayResults × List Effect :=
  let sorted := sortSteps fields
  replayLoop find sorted sorted.length startIndex
    { filled := 0, clicked := 0, skipped := 0, warnings := [], lastIndex := startIndex } []

/-- `replayScript` with the caller's array modelled as a heap reference.
The store maps references (indices) to step arrays; `r` is the caller's
array.  `[...fields]` allocates a fresh reference holding a copy, and
`.sort` mutates the array it is called on — here the copy.  The loop body
only reads step fields (`selector`, `action`, `value`, `type`, `label`)
and never assigns into any array or step, so it takes no store. -/
def replayScriptStore (store : List (List RStep)) (r : Nat)
    (find : Nat → Option PageElem) (startIndex : Nat) :
    List (List RStep) × ReplayResults × List Effect :=
  let fields := store.getD r []
  let copyRef := store.length
  let store1 := store ++ [fields]
  let store2 := store1.set copyRef (sortSteps (store1.getD copyRef []))
  let sorted := store2.getD copyRef []
  (store2,
   replayLoop find sorted sorted.length startIndex
     { filled := 0, clicked := 0, skipped := 0, warnings := [], lastIndex := startIndex } [])

/-- `pendingReplayResults` (background.js), with the fields the abort path
touches; `aborted` is absent (`false`) until the abort path sets it. -/
structure PendingResults where
  filled : Nat
  clicked : Nat
  skipped : Nat
  warnings : List String
  aborted : Bool
deriving DecidableEq, Repr

/-- The fresh report the listener creates when none is pending:
`{ filled: 0, clicked: 0, skipped: 0, warnings: [] }`. -/
def emptyPending : PendingResults :=
  { filled := 0, clicked := 0, skipped := 0, warnings := [], aborted := false }

/-- `replayState` (background.js): `steps` is `msg.fields || null`, so it
may be null; `lastCompletedIndex` starts at `-1`. -/
structure ReplaySession where
  tabId : Nat
  steps : Option (List RStep)
  lastCompletedIndex : Int
  originHostname : String
deriving DecidableEq, Repr

/-- The two background globals the navigation listener reads and writes. -/
structure BgState where
  replayState : Option ReplaySession
  pendingReplayResults : Option PendingResults
deriving DecidableEq, Repr

/-- The outward action of one `chrome.tabs.onUpdated` callback run: either
nothing, or sending `CONTINUE_REPLAY { fields, startIndex }` to the tab
(after the PING/reinjection preamble, which does not change the decision
to continue nor the index). -/
inductive NavAction where
  | noop
  | continueReplay (steps : List RStep) (startIndex : Nat)
deriving DecidableEq, Repr

/-- The warning pushed on a cross-domain abort. -/
def abortWarning (hostname : String) : String :=
  "Cross-domain navigation to " ++ hostname ++ " — replay aborted"

/-- The `chrome.tabs.onUpdated` listener (background.js).  `statusComplete`
is `changeInfo.status === 'complete'`; `hostname` is
`new URL(tab.url).hostname`, `none` when the URL constructor throws (the
`catch` clause then clears the session).  Guard order follows the source:
no session → ignore; other tab → ignore; not complete → ignore;
null `steps` or `lastCompletedIndex < 0` → ignore; hostname mismatch →
record `aborted` + warning and clear the session; sequence already
complete → clear the session; otherwise ensure a pending report exists and
continue replay at `lastCompletedIndex + 1`. -/
def onTabUpdated (bg : BgState) (tabId : Nat) (statusComplete : Bool)
    (hostname : Option String) : BgState × NavAction :=
  match bg.replayState with
  | none => (bg, .noop)
  | some rs =>
    if tabId ≠ rs.tabId then (bg, .noop)
    else if statusComplete = false then (bg, .noop)
    else
      match rs.steps with
      | none => (bg, .noop)
      | some steps =>
        if rs.lastCompletedIndex < 0 then (bg, .noop)
        else
          match hostname with
          | none => ({ bg with replayState := none }, .noop)
          | some newHostname =>
            if newHostname ≠ rs.originHostname then
              let base := bg.pendingReplayResults.getD emptyPending
              ({ replayState := none,
                 pendingReplayResults := some
                   { base with aborted := true,
                               warnings := base.warnings ++ [abortWarning newHostname] } },
               .noop)
            else
              let startIndex := rs.lastCompletedIndex + 1
              if (steps.length : Int) ≤ startIndex then
                ({ bg with replayState := none }, .noop)
              else
                let pend := some (bg.pendingReplayResults.getD emptyPending)
                ({ bg with pendingReplayResults := pend },
                 .continueReplay steps startIndex.toNat)

/-- The observable state of one `waitForElement` invocation: the JS
`resolved` flag, whether the `MutationObserver` is still connected, and
the promise outcome (`none` = still pending, `some (some el)` = resolved
to an element, `some none` = resolved to null). -/
structure WaitState where
  resolvedFlag : Bool
  observerConnected : Bool
  outcome : Option (Option PageElem)
deriving DecidableEq, Repr

/-- An event delivered to `waitForElement`'s callbacks by the event loop:
a batch of DOM mutations (with the result `document.querySelector` gives
at that moment), or the `setTimeout` firing. -/
inductive WaitEvt where
  | mutation (queryResult : Option PageElem)
  | timeout
deriving DecidableEq, Repr

/-- `waitForElement`, entry: an immediate query; on a hit resolve at once
without ever creating the observer, otherwise connect the observer and
wait. -/
def waitInit (initialQuery : Option PageElem) : WaitState :=
  match initialQuery with
  | some el => { resolvedFlag := true, observerConnected := false, outcome := some (some el) }
  | none => { resolvedFlag := false, observerConnected := true, outcome := none }

/-- One callback run of `waitForElement`.  A mutation batch only reaches
the callback while the observer is connected; on a query hit the callback
sets `resolved`, disconnects and resolves.  The timeout callback checks
`resolved`, and if unset disconnects and resolves null. -/
def waitStep (s : WaitState) (e : WaitEvt) : WaitState :=
  match e with
  | .mutation q =>
    if s.observerConnected = false then s
    else
      match q with
      | some el => { resolvedFlag := true, observerConnected := false, outcome := some (some el) }
      | none => s
  | .timeout =>
    if s.resolvedFlag then s
    else { s with observerConnected := false, outcome := some none }

/-- A whole `waitForElement` run: the initial query, then the finite
sequence of event-loop deliveries. -/
def waitRun (initialQuery : Option PageElem) (evs : List WaitEvt) : WaitState :=
  evs.foldl waitStep (waitInit initialQuery)

/-- The step fields other than `value`: used to state that the dedupe
branch of `onInput` changes nothing but a `value`. -/
def stepKey (f : RStep) : Nat × String × String × Option String × String × Bool :=
  (f.order, f.action, f.selector, f.type, f.label, f.fragile)

/-- Iteration `j` of the replay loop resolves its element and is a fill. -/
def isFillAt (find : Nat → Option PageElem) (sorted : List RStep) (j : Nat) : Bool :=
  (find j).isSome && !(actionOf (sorted.getD j dflStep) == "click")

/-- Iteration `j` of the replay loop resolves its element and is a click. -/
def isClickAt (find : Nat → Option PageElem) (sorted : List RStep) (j : Nat) : Bool :=
  (find j).isSome && (actionOf (sorted.getD j dflStep) == "click")

/-- The warning iteration `j` contributes: one entry exactly when its
element fails to resolve. -/
def failWarn (find : Nat → Option PageElem) (sorted : List RStep) (j : Nat) : Option String :=
  match find j with
  | none => some (warnOf (sorted.getD j dflStep))
  | some _ => none

/-- The effect trace iteration `j` contributes. -/
def stepBlock (find : Nat → Option PageElem) (sorted : List RStep) (j : Nat) : List Effect :=
  match find j with
  | none => []
  | some el =>
    let step := sorted.getD j dflStep
    if actionOf step == "click" then [.progress j, .click j, .settle 300]
    else setValueEffects el step.value step.type ++ [.settle 150]

/-- Concatenation of the per-iteration effect traces. -/
def catMap (f : Nat → List Effect) : List Nat → List Effect
  | [] => []
  | i :: rest => f i ++ catMap f rest

/-- Unfolding one failing iteration of the replay loop: one `skipped`, one
warning naming the step's selector and label, `lastIndex = i`, and the
loop continues with the next index — the failure aborts nothing. -/
theorem replayLoop_skip (find : Nat → Option PageElem) (sorted : List RStep)
    (fuel i : Nat) (res : ReplayResults) (eff : List Effect)
    (hi : i < sorted.length) (hf : find i = none) :
    replayLoop find sorted (fuel + 1) i res eff =
    replayLoop find sorted fuel (i + 1)
      { res with skipped := res.skipped + 1,
                 warnings := res.warnings ++ [warnOf (sorted.getD i dflStep)],
                 lastIndex := i } eff := by
  simp only [replayLoop, if_pos hi, hf]

/-- Unfolding one successful click iteration: the `REPLAY_PROGRESS`
message for index `i` is emitted, then the click, then the 300 ms
quiescence wait. -/
theorem replayLoop_click (find : Nat → Option PageElem) (sorted : List RStep)
    (fuel i : Nat) (res : ReplayResults) (eff : List Effect) (el : PageElem)
    (hi : i < sorted.length) (hf : find i = some el)
    (hc : (actionOf (sorted.getD i dflStep) == "click") = true) :
    replayLoop find sorted (fuel + 1) i res eff =
    replayLoop find sorted fuel (i + 1)
      { res with clicked := res.clicked + 1, lastIndex := i }
      (eff ++ [.progress i, .click i, .settle 300]) := by
  simp only [replayLoop, if_pos hi, hf, hc, if_true]

/-- Unfolding one successful fill iteration: the value-injection effects
for the step's type, then the 150 ms quiescence wait. -/
theorem replayLoop_fill (find : Nat → Option PageElem) (sorted : List RStep)
    (fuel i : Nat) (res : ReplayResults) (eff : List Effect) (el : PageElem)
    (hi : i < sorted.length) (hf : find i = some el)
    (hc : ¬ (actionOf (sorted.getD i dflStep) == "click") = true) :
    replayLoop find sorted (fuel + 1) i res eff =
    replayLoop find sorted fuel (i + 1)
      { res with filled := res.filled + 1, lastIndex := i }
      (eff ++ (setValueEffects el (sorted.getD i dflStep).value
        (sorted.getD i dflStep).type ++ [.settle 150])) := by
  simp only [replayLoop, if_pos hi, hf, if_neg hc]

/-- Closed form of the replay loop: over the iterations `i, …,
sorted.length - 1` it adds one `filled`/`clicked` per resolved fill/click,
one `skipped` and exactly one warning per resolution failure, sets
`lastIndex` to the last iteration processed, and appends the
per-iteration effect traces in order.  In particular the result does not
depend on `fuel` as long as `fuel ≥ sorted.length - i`. -/
theorem replayLoop_eq (find : Nat → Option PageElem) (sorted : List RStep) :
    ∀ (fuel i : Nat) (res : ReplayResults) (eff : List Effect),
    sorted.length - i ≤ fuel →
    replayLoop find sorted fuel i res eff =
    ({ filled := res.filled +
         (List.range' i (sorted.length - i) 1).countP (isFillAt find sorted),
       clicked := res.clicked +
         (List.range' i (sorted.length - i) 1).countP (isClickAt find sorted),
       skipped := res.skipped +
         (List.range' i (sorted.length - i) 1).countP (fun j => (find j).isNone),
       warnings := res.warnings ++
         (List.range' i (sorted.length - i) 1).filterMap (failWarn find sorted),
       lastIndex := if sorted.length - i = 0 then res.lastIndex else sorted.length - 1 },
     eff ++ catMap (stepBlock find sorted) (List.range' i (sorted.length - i) 1)) := by
  intro fuel
  induction fuel with
  | zero =>
    intro i res eff h
    have h0 : sorted.length - i = 0 := Nat.le_zero.mp h
    rw [h0]
    simp [replayLoop, catMap]
  | succ fuel ih =>
    intro i res eff h
    by_cases hi : i < sorted.length
    · have hn : sorted.length - i = (sorted.length - (i + 1)) + 1 := by omega
      rw [hn, List.range'_succ]
      rcases hf : find i with _ | el
      · rw [replayLoop_skip find sorted fuel i res eff hi hf,
          ih (i + 1) _ _ (by omega)]
        simp only [List.countP_cons, List.filterMap_cons, catMap, failWarn, hf,
          stepBlock, isFillAt, isClickAt, Option.isSome_none, Option.isNone_none,
          Bool.false_and, ReplayResults.mk.injEq, List.append_assoc,
          List.cons_append, List.nil_append, Prod.mk.injEq]
        refine ⟨⟨by simp, by simp, by simp [Nat.add_assoc, Nat.add_comm], by simp, ?_⟩, by simp⟩
        rw [if_neg (Nat.succ_ne_zero _)]
        split <;> omega
      · by_cases hc : (actionOf (sorted.getD i dflStep) == "click") = true
        · rw [replayLoop_click find sorted fuel i res eff el hi hf hc,
            ih (i + 1) _ _ (by omega)]
          simp only [List.countP_cons, List.filterMap_cons, catMap, failWarn, hf,
            stepBlock, isFillAt, isClickAt, hc, Option.isSome_some, Option.isNone_some,
            Bool.true_and, Bool.not_true, Bool.and_true, Bool.and_false, if_true,
            ReplayResults.mk.injEq, List.append_assoc, List.cons_append,
            List.nil_append, Prod.mk.injEq]
          refine ⟨⟨by simp, by simp [Nat.add_assoc, Nat.add_comm], by simp, by simp, ?_⟩, by simp⟩
          rw [if_neg (Nat.succ_ne_zero _)]
          split <;> omega
        · rw [replayLoop_fill find sorted fuel i res eff el hi hf hc,
            ih (i + 1) _ _ (by omega)]
          simp only [List.countP_cons, List.filterMap_cons, catMap, failWarn, hf,
            stepBlock, isFillAt, isClickAt, hc, Option.isSome_some, Option.isNone_some,
            Bool.true_and, Bool.not_false, if_neg hc,
            ReplayResults.mk.injEq, List.append_assoc, List.cons_append,
            List.nil_append, Prod.mk.injEq]
          refine ⟨⟨by simp [Nat.add_assoc, Nat.add_comm], by simp, by simp, by simp, ?_⟩, by simp⟩
          rw [if_neg (Nat.succ_ne_zero _)]
          split <;> omega
    · have h0 : sorted.length - i = 0 := by omega
      rw [h0]
      simp [replayLoop, hi, catMap]

/-- Effects that are neither a click nor a progress report. -/
def isPassiveEffect : Effect → Bool
  | .click _ => false
  | .progress _ => false
  | .assignChecked _ => true
  | .assignValue _ _ => true
  | .dispatch _ _ => true
  | .settle _ => true

/-- Scan a trace left to right, accumulating the indices already reported
as progress; succeed only if every click's index was reported before it. -/
def checkClicks : List Nat → List Effect → Bool
  | _, [] => true
  | seen, .progress j :: rest => checkClicks (j :: seen) rest
  | seen, .click j :: rest => if j ∈ seen then checkClicks seen rest else false
  | seen, .assignChecked _ :: rest => checkClicks seen rest
  | seen, .assignValue _ _ :: rest => checkClicks seen rest
  | seen, .dispatch _ _ :: rest => checkClicks seen rest
  | seen, .settle _ :: rest => checkClicks seen rest

/-- A block of passive effects neither performs a click nor changes the
set of reported indices. -/
theorem checkClicks_passive_append :
    ∀ (l t : List Effect) (seen : List Nat), (∀ e ∈ l, isPassiveEffect e = true) →
    checkClicks seen (l ++ t) = checkClicks seen t := by
  intro l
  induction l with
  | nil => intro t seen _; rfl
  | cons e rest ih =>
    intro t seen hp
    have he : isPassiveEffect e = true := hp e (by simp)
    have hrest : ∀ x ∈ rest, isPassiveEffect x = true := fun x hx => hp x (by simp [hx])
    cases e with
    | click j => simp [isPassiveEffect] at he
    | progress j => simp [isPassiveEffect] at he
    | assignChecked v => simpa [checkClicks] using ih t seen hrest
    | assignValue v n => simpa [checkClicks] using ih t seen hrest
    | dispatch ev b => simpa [checkClicks] using ih t seen hrest
    | settle ms => simpa [checkClicks] using ih t seen hrest

/-- Every effect `setValue` performs is passive: it assigns values and
dispatches events but never clicks and never reports progress. -/
theorem setValueEffects_passive (el : PageElem) (v : Option JValue) (ty : Option String) :
    ∀ e ∈ setValueEffects el v ty, isPassiveEffect e = true := by
  intro e he
  unfold setValueEffects at he
  split at he
  · split at he
    · simp at he
    · rcases (by simpa using he : _ ∨ _ ∨ _) with h | h | h <;> subst h <;> rfl
  · split at he
    · rcases (by simpa using he : _ ∨ _ ∨ _) with h | h | h <;> subst h <;> rfl
    · split at he
      · rcases (by simpa using he : _ ∨ _ ∨ _) with h | h | h <;> subst h <;> rfl
      · rcases (by simpa using he : _ ∨ _ ∨ _) with h | h | h <;> subst h <;> rfl

/-- Every trace the replay loop can produce passes the click check: each
click block emits its own progress report first, and all other blocks are
passive. -/
theorem checkClicks_catMap (find : Nat → Option PageElem) (sorted : List RStep) :
    ∀ (l : List Nat) (seen : List Nat),
    checkClicks seen (catMap (stepBlock find sorted) l) = true := by
  intro l
  induction l with
  | nil => intro seen; rfl
  | cons i rest ih =>
    intro seen
    show checkClicks seen (stepBlock find sorted i ++ catMap (stepBlock find sorted) rest) = true
    rcases hf : find i with _ | el
    · simp only [stepBlock, hf, List.nil_append]
      exact ih seen
    · by_cases hc : (actionOf (sorted.getD i dflStep) == "click") = true
      · simp only [stepBlock, hf, hc, if_true]
        show checkClicks (i :: seen) (Effect.click i :: Effect.settle 300 ::
          catMap (stepBlock find sorted) rest) = true
        show (if i ∈ i :: seen then checkClicks (i :: seen) (Effect.settle 300 ::
          catMap (stepBlock find sorted) rest) else false) = true
        rw [if_pos (List.mem_cons_self i seen)]
        exact ih (i :: seen)
      · simp only [stepBlock, hf, if_neg hc]
        rw [List.append_assoc,
          checkClicks_passive_append _ _ seen (setValueEffects_passive el _ _)]
        show checkClicks seen (catMap (stepBlock find sorted) rest) = true
        exact ih seen

/-- Soundness of the scan: a passing trace has, before every click on
index `j`, either `j` already in the accumulator or an earlier progress
report for `j`. -/
theorem checkClicks_sound :
    ∀ (tr : List Effect) (seen : List Nat), checkClicks seen tr = true →
    ∀ (p j : Nat), tr.get? p = some (.click j) →
    j ∈ seen ∨ ∃ q, q < p ∧ tr.get? q = some (.progress j) := by
  intro tr
  induction tr with
  | nil => intro seen _ p j hp; simp at hp
  | cons e rest ih =>
    intro seen hchk p j hp
    cases p with
    | zero =>
      cases e with
      | click j2 =>
        have hj : j2 = j := by simpa using hp
        subst hj
        by_cases hm : j2 ∈ seen
        · exact Or.inl hm
        · rw [show checkClicks seen (Effect.click j2 :: rest) =
            (if j2 ∈ seen then checkClicks seen rest else false) from rfl,
            if_neg hm] at hchk
          exact absurd hchk (by simp)
      | progress j2 => simp at hp
      | assignChecked v => simp at hp
      | assignValue v n => simp at hp
      | dispatch ev b => simp at hp
      | settle ms => simp at hp
    | succ p =>
      have hp' : rest.get? p = some (.click j) := by simpa using hp
      cases e with
      | progress j2 =>
        have hchk' : checkClicks (j2 :: seen) rest = true := hchk
        rcases ih (j2 :: seen) hchk' p j hp' with hm | ⟨q, hq, hget⟩
        · rcases List.mem_cons.mp hm with h | h
          · subst h
            exact Or.inr ⟨0, Nat.succ_pos p, rfl⟩
          · exact Or.inl h
        · exact Or.inr ⟨q + 1, by omega, by simpa using hget⟩
      | click j2 =>
        by_cases hm : j2 ∈ seen
        · have hchk' : checkClicks seen rest = true := by
            rw [show checkClicks seen (Effect.click j2 :: rest) =
              (if j2 ∈ seen then checkClicks seen rest else false) from rfl,
              if_pos hm] at hchk
            exact hchk
          rcases ih seen hchk' p j hp' with h | ⟨q, hq, hget⟩
          · exact Or.inl h
          · exact Or.inr ⟨q + 1, by omega, by simpa using hget⟩
        · rw [show checkClicks seen (Effect.click j2 :: rest) =
            (if j2 ∈ seen then checkClicks seen rest else false) from rfl,
            if_neg hm] at hchk
          exact absurd hchk (by simp)
      | assignChecked v =>
        rcases ih seen hchk p j hp' with h | ⟨q, hq, hget⟩
        · exact Or.inl h
        · exact Or.inr ⟨q + 1, by omega, by simpa using hget⟩
      | assignValue v n =>
        rcases ih seen hchk p j hp' with h | ⟨q, hq, hget⟩
        · exact Or.inl h
        · exact Or.inr ⟨q + 1, by omega, by simpa using hget⟩
      | dispatch ev b =>
        rcases ih seen hchk p j hp' with h | ⟨q, hq, hget⟩
        · exact Or.inl h
        · exact Or.inr ⟨q + 1, by omega, by simpa using hget⟩
      | settle ms =>
        rcases ih seen hchk p j hp' with h | ⟨q, hq, hget⟩
        · exact Or.inl h
        · exact Or.inr ⟨q + 1, by omega, by simpa using hget⟩

/-- Every click in the trace is preceded by a progress report for the
same index. -/
def EveryClickPreceded (tr : List Effect) : Prop :=
  ∀ (p j : Nat), tr.get? p = some (.click j) →
  ∃ q, q < p ∧ tr.get? q = some (.progress j)

/-- Invariant of a `waitForElement` run: once resolved the observer is
disconnected, and the `resolved` flag is only ever set after resolving. -/
def waitInv (s : WaitState) : Prop :=
  (s.outcome.isSome = true → s.observerConnected = false) ∧
  (s.resolvedFlag = true → s.outcome.isSome = true)

theorem waitInv_init (q : Option PageElem) : waitInv (waitInit q) := by
  cases q <;> simp [waitInit, waitInv]

theorem waitInv_step (s : WaitState) (e : WaitEvt) (h : waitInv s) :
    waitInv (waitStep s e) := by
  obtain ⟨h1, h2⟩ := h
  cases e with
  | mutation q =>
    by_cases hc : s.observerConnected = false
    · simpa [waitStep, hc] using ⟨h1, h2⟩
    · cases q with
      | some el => simp [waitStep, hc, waitInv]
      | none => simpa [waitStep, hc] using ⟨h1, h2⟩
  | timeout =>
    by_cases hr : s.resolvedFlag = true
    · simpa [waitStep, hr] using ⟨h1, h2⟩
    · simp only [waitStep, hr, if_neg]
      refine ⟨fun _ => rfl, fun hflag => ?_⟩
      simp

theorem waitInv_foldl (s : WaitState) (evs : List WaitEvt) (h : waitInv s) :
    waitInv (evs.foldl waitStep s) := by
  induction evs generalizing s with
  | nil => exact h
  | cons e rest ih => exact ih (waitStep s e) (waitInv_step s e h)

/-- Once resolved with the observer disconnected, a run stays that way
under any further event. -/
theorem waitSettled_step (s : WaitState) (e : WaitEvt)
    (h1 : s.outcome.isSome = true) (h2 : s.observerConnected = false) :
    (waitStep s e).outcome.isSome = true ∧ (waitStep s e).observerConnected = false := by
  cases e with
  | mutation q =>
    rw [show waitStep s (.mutation q) = s by simp [waitStep, h2]]
    exact ⟨h1, h2⟩
  | timeout =>
    by_cases hr : s.resolvedFlag = true
    · rw [show waitStep s .timeout = s by simp [waitStep, hr]]
      exact ⟨h1, h2⟩
    · simp [waitStep, hr]

theorem waitSettled_foldl (s : WaitState) (evs : List WaitEvt)
    (h1 : s.outcome.isSome = true) (h2 : s.observerConnected = false) :
    (evs.foldl waitStep s).outcome.isSome = true ∧
    (evs.foldl waitStep s).observerConnected = false := by
  induction evs generalizing s with
  | nil => exact ⟨h1, h2⟩
  | cons e rest ih =>
    obtain ⟨g1, g2⟩ := waitSettled_step s e h1 h2
    exact ih (waitStep s e) g1 g2

/-- Delivering the timeout to a run satisfying the invariant leaves it
resolved with the observer disconnected. -/
theorem waitTimeout_settles (s : WaitState) (h : waitInv s) :
    (waitStep s .timeout).outcome.isSome = true ∧
    (waitStep s .timeout).observerConnected = false := by
  obtain ⟨h1, h2⟩ := h
  by_cases hr : s.resolvedFlag = true
  · have ho := h2 hr
    have hc := h1 ho
    rw [show waitStep s .timeout = s by simp [waitStep, hr]]
    exact ⟨ho, hc⟩
  · simp [waitStep, hr]

/-- Setting index `n` of `l ++ [x]`, where `n = l.length`, replaces the
appended element. -/
theorem set_append_last {α : Type} (l : List α) (x y : α) :
    (l ++ [x]).set l.length y = l ++ [y] := by
  induction l with
  | nil => rfl
  | cons a rest ih => simp [List.set, ih]

theorem getD_append_last {α : Type} (l : List α) (x : α) (d : α) :
    (l ++ [x]).getD l.length d = x := by
  induction l with
  | nil => rfl
  | cons a rest ih => simp [List.getD, ih]

theorem getD_append_lt {α : Type} (l l2 : List α) (d : α) (r : Nat) (h : r < l.length) :
    (l ++ l2).getD r d = l.getD r d := by
  induction l generalizing r with
  | nil => simp at h
  | cons a rest ih =>
    cases r with
    | zero => rfl
    | succ r => simpa [List.getD] using ih r (by simpa using h)

/-- `updateFirstValue` changes at most one step's `value`: every other
field of every step, and the list shape, are untouched. -/
theorem updateFirstValue_map_key (sel : String) (v : JValue) :
    ∀ l : List RStep, (updateFirstValue sel v l).map stepKey = l.map stepKey := by
  intro l
  induction l with
  | nil => rfl
  | cons f rest ih =>
    by_cases hs : (f.selector == sel) = true
    · simp [updateFirstValue, hs, stepKey]
    · simp [updateFirstValue, hs, ih]

/-- After `updateFirstValue`, the first step matching the selector is the
old first match with its `value` overwritten. -/
theorem find?_updateFirstValue (sel : String) (v : JValue) :
    ∀ l : List RStep, ((l.find? (fun f => f.selector == sel)).isSome = true) →
    (updateFirstValue sel v l).find? (fun f => f.selector == sel) =
    (l.find? (fun f => f.selector == sel)).map (fun f => { f with value := some v }) := by
  intro l
  induction l with
  | nil => intro h; simp at h
  | cons f rest ih =>
    intro h
    by_cases hs : (f.selector == sel) = true
    · rw [show updateFirstValue sel v (f :: rest) =
        { f with value := some v } :: rest by simp [updateFirstValue, hs]]
      rw [List.find?_cons_of_pos _ (by simpa using hs),
        List.find?_cons_of_pos _ (by simpa using hs)]
      rfl
    · rw [show updateFirstValue sel v (f :: rest) =
        f :: updateFirstValue sel v rest by simp [updateFirstValue, hs]]
      rw [List.find?_cons_of_neg _ (by simpa using hs),
        List.find?_cons_of_neg _ (by simpa using hs)]
      refine ih ?_
      rw [List.find?_cons_of_neg _ (by simpa using hs)] at h
      exact h

/-- Under a valid path the positional walk emits one segment per level. -/
theorem positionalParts_length :
    ∀ (path : List Nat) (body : DomTree), (nodeAt body path).isSome = true →
    (positionalParts body path).length = path.length := by
  intro path
  induction path with
  | nil => intro body _; rfl
  | cons i rest ih =>
    intro body h
    rcases hg : body.children.get? i with _ | c
    · rw [show nodeAt body (i :: rest) = none by
        simp only [nodeAt]; rw [hg]] at h
      simp at h
    · rw [show positionalParts body (i :: rest) =
        levelSegment body i c :: positionalParts c rest by
        simp only [positionalParts]; rw [hg]]
      rw [show nodeAt body (i :: rest) = nodeAt c rest by
        simp only [nodeAt]; rw [hg]] at h
      simp [ih c h]

/-- Segment `j` of the positional walk is `levelSegment parent i c`, where
`parent` is the node `j` levels below `<body>` on the path, `i` the next
path index, and `c` the child it selects. -/
theorem positionalParts_get? :
    ∀ (path : List Nat) (body : DomTree) (j i : Nat) (parent c : DomTree),
    nodeAt body (path.take j) = some parent → path.get? j = some i →
    parent.children.get? i = some c →
    (positionalParts body path).get? j = some (levelSegment parent i c) := by
  intro path
  induction path with
  | nil => intro body j i parent c _ hj _; simp at hj
  | cons i0 rest ih =>
    intro body j i parent c hparent hj hc
    cases j with
    | zero =>
      have hb : body = parent := by
        have h0 : nodeAt body [] = some parent := by simpa using hparent
        simpa [nodeAt] using h0
      subst hb
      have hi : i0 = i := by simpa using hj
      subst hi
      rw [show positionalParts body (i0 :: rest) =
        levelSegment body i0 c :: positionalParts c rest by
        simp only [positionalParts]; rw [hc]]
      rfl
    | succ j =>
      rcases hg : body.children.get? i0 with _ | c0
      · rw [show nodeAt body ((i0 :: rest).take (j + 1)) = none by
          simp only [List.take_succ_cons, nodeAt]; rw [hg]] at hparent
        simp at hparent
      · have hparent' : nodeAt c0 (rest.take j) = some parent := by
          rw [show nodeAt body ((i0 :: rest).take (j + 1)) =
            nodeAt c0 (rest.take j) by
            simp only [List.take_succ_cons, nodeAt]; rw [hg]] at hparent
          exact hparent
        have hj' : rest.get? j = some i := by simpa using hj
        rw [show positionalParts body (i0 :: rest) =
          levelSegment body i0 c0 :: positionalParts c0 rest by
          simp only [positionalParts]; rw [hg]]
        simpa using ih c0 j i parent c hparent' hj' hc

/-- Fresh recorder state right after `startRecording`. -/
def recStart : RecState := { recording := true, fieldOrder := 0, capturedFields := [] }

/-- A click on an `<input type="submit">`, as `onClickCapture` sees it. -/
def submitClickEvt : ClickEvt :=
  { hasClickTarget := true, tagName := "INPUT", inputType := "submit",
    insideLabel := false, insideHud := false, selector := "#go", fragile := false,
    label := "Go" }

/-- A `change` event on the same submit input (selector `#go`). -/
def goChangeEvt : InputEvt :=
  { tagName := "INPUT", selector := "#go", fragile := false, fieldType := "text",
    value := .str "x", label := "Go" }

/-- An `input` event on a text field with selector `#field` and value `v`. -/
def fieldInputEvt (v : String) : InputEvt :=
  { tagName := "INPUT", selector := "#field", fragile := false, fieldType := "text",
    value := .str v, label := "Field" }

/-- C1, counterexample: the recorded buffer contains a click step for
selector `#go` and no step with action `fill` for that selector, yet the
`change` event on `#go` appends no fill step and assigns no new order —
it overwrites the click step's `value` instead, because the dedupe lookup
`capturedFields.find((f) => f.selector === selector)` matches on the
selector alone, ignoring the action. -/
theorem steno_C1_cex :
    ((onClickCapture recStart submitClickEvt).capturedFields.find?
      (fun f => f.selector == "#go" && f.action == "fill")) = none ∧
    (onInput (onClickCapture recStart submitClickEvt) goChangeEvt).capturedFields =
      [{ order := 1, action := "click", selector := "#go", value := some (.str "x"),
         type := none, label := "Go", fragile := false }] ∧
    ((onInput (onClickCapture recStart submitClickEvt) goChangeEvt).capturedFields.filter
      (fun f => f.action == "fill")).length = 0 ∧
    (onInput (onClickCapture recStart submitClickEvt) goChangeEvt).fieldOrder = 1 := by
  decide

/-- C1 (amended): while recording, an `input`/`change` event on a form
element whose resolved selector matches *any* step already in the buffer
(regardless of that step's action) overwrites that first matching step's
`value` in place — the order counter and every other field of every step
are unchanged; otherwise a fill step with the next sequential order is
appended.  In particular three `input` events on the same text field with
values "a", "ab", "abc" leave exactly one fill step with value "abc" and
its first-capture order 1. -/
theorem steno_C1 :
    (∀ (st : RecState) (e : InputEvt),
      st.recording = true → isFormElement e.tagName = true →
      (((st.capturedFields.find? (fun f => f.selector == e.selector)).isSome = true →
        (onInput st e).fieldOrder = st.fieldOrder ∧
        (onInput st e).capturedFields.map stepKey = st.capturedFields.map stepKey ∧
        (onInput st e).capturedFields.find? (fun f => f.selector == e.selector) =
          (st.capturedFields.find? (fun f => f.selector == e.selector)).map
            (fun f => { f with value := some e.value })) ∧
      ((st.capturedFields.find? (fun f => f.selector == e.selector)).isSome = false →
        (onInput st e).fieldOrder = st.fieldOrder + 1 ∧
        (onInput st e).capturedFields = st.capturedFields ++
          [{ order := st.fieldOrder + 1, action := "fill", selector := e.selector,
             value := some e.value, type := some e.fieldType, label := e.label,
             fragile := e.fragile }]))) ∧
    ((onInput (onInput (onInput recStart (fieldInputEvt "a")) (fieldInputEvt "ab"))
      (fieldInputEvt "abc")).capturedFields =
      [{ order := 1, action := "fill", selector := "#field", value := some (.str "abc"),
         type := some "text", label := "Field", fragile := false }]) := by
  constructor
  · intro st e hrec hform
    constructor
    · intro hfind
      rw [show onInput st e =
        { st with capturedFields := updateFirstValue e.selector e.value st.capturedFields } by
        simp [onInput, hrec, hform, hfind]]
      refine ⟨rfl, updateFirstValue_map_key e.selector e.value st.capturedFields, ?_⟩
      exact find?_updateFirstValue e.selector e.value st.capturedFields hfind
    · intro hfind
      rw [show onInput st e =
        { st with
          fieldOrder := st.fieldOrder + 1,
          capturedFields := st.capturedFields ++
            [{ order := st.fieldOrder + 1, action := "fill", selector := e.selector,
               value := some e.value, type := some e.fieldType, label := e.label,
               fragile := e.fragile }] } by
        simp [onInput, hrec, hform, hfind]]
      exact ⟨rfl, rfl⟩
  · decide

/-- The fill step captured by the first event on `#field`. -/
def fieldStepA : RStep :=
  { order := 1, action := "fill", selector := "#field", value := some (.str "a"),
    type := some "text", label := "Field", fragile := false }

/-- Recorder state holding one fill step for `#field`. -/
def preState : RecState :=
  { recording := true, fieldOrder := 1, capturedFields := [fieldStepA] }

/-- C1, witness: the dedupe branch applied to a buffer with one existing
fill step for the same selector. -/
theorem steno_C1_witness :
    (onInput preState (fieldInputEvt "ab")).fieldOrder = preState.fieldOrder ∧
    (onInput preState (fieldInputEvt "ab")).capturedFields.map stepKey =
      preState.capturedFields.map stepKey ∧
    (onInput preState (fieldInputEvt "ab")).capturedFields.find?
      (fun f => f.selector == (fieldInputEvt "ab").selector) =
      (preState.capturedFields.find?
        (fun f => f.selector == (fieldInputEvt "ab").selector)).map
        (fun f => { f with value := some (fieldInputEvt "ab").value }) :=
  (steno_C1.1 preState (fieldInputEvt "ab") (by decide) (by decide)).1 (by decide)

/-- A `<body><div><input></div></body>` document fragment. -/
def bodyTree : DomTree := .node "BODY" [.node "DIV" [.node "INPUT" []]]

/-- C2, counterexample: for the input nested one `<div>` below `<body>`,
the code joins the positional segments with the `' > '` child combinator
(`"div > input"`), not with the single-space descendant combinator the
claim describes (`"div input"`). -/
theorem steno_C2_cex :
    buildPositionalSelector bodyTree [0, 0] = "div > input" ∧
    specDescendantSelector bodyTree [0, 0] = "div input" ∧
    buildPositionalSelector bodyTree [0, 0] ≠ specDescendantSelector bodyTree [0, 0] := by
  decide

/-- C2 (amended): for every element that falls through to the positional
fallback, `getSelector` returns the walk's segments joined with the
`' > '` child combinator and `fragile = true`; the walk emits one segment
per level between the element and `<body>` (exclusive), and each segment
is `tagname:nth-of-type(k)` — `k` the 1-based position among same-tag
siblings — exactly when the parent has more than one child of that tag,
and the bare lowercase tagname otherwise. -/
theorem steno_C2 :
    (∀ (doc : Doc) (el : Elem),
      el.id = "" →
      (el.name = "" ∨
        (doc.queryCount (strToLower el.tagName ++ "[name=\"" ++ el.name ++ "\"]") ≠ 1 ∧
          (el.closestFormIndex = none ∨
            ∃ fi, el.closestFormIndex = some fi ∧
              doc.queryCount ("form:nth-of-type(" ++ toString (fi + 1) ++ ") " ++
                strToLower el.tagName ++ "[name=\"" ++ el.name ++ "\"]") ≠ 1))) →
      (el.dataQa = "" ∨ doc.queryCount ("[data-qa=\"" ++ el.dataQa ++ "\"]") ≠ 1) →
      getSelector doc el = (joinSep " > " (positionalParts doc.body el.path), true)) ∧
    (∀ (path : List Nat) (body : DomTree), (nodeAt body path).isSome = true →
      (positionalParts body path).length = path.length) ∧
    (∀ (path : List Nat) (body : DomTree) (j i : Nat) (parent c : DomTree),
      nodeAt body (path.take j) = some parent → path.get? j = some i →
      parent.children.get? i = some c →
      (positionalParts body path).get? j = some (levelSegment parent i c)) ∧
    (∀ (parent c : DomTree) (i : Nat),
      (1 < parent.children.countP (fun s => s.tag == c.tag) →
        levelSegment parent i c = strToLower c.tag ++ ":nth-of-type(" ++
          toString (((parent.children.take i).countP (fun s => s.tag == c.tag)) + 1) ++ ")") ∧
      (parent.children.countP (fun s => s.tag == c.tag) ≤ 1 →
        levelSegment parent i c = strToLower c.tag)) := by
  refine ⟨?_, positionalParts_length, positionalParts_get?, ?_⟩
  · intro doc el hid hname hqa
    have hqa' : (if el.dataQa ≠ "" then
        (if doc.queryCount ("[data-qa=\"" ++ el.dataQa ++ "\"]") = 1
          then ("[data-qa=\"" ++ el.dataQa ++ "\"]", false)
          else (buildPositionalSelector doc.body el.path, true))
        else (buildPositionalSelector doc.body el.path, true)) =
        (buildPositionalSelector doc.body el.path, true) := by
      rcases hqa with h | h
      · rw [if_neg (by simp [h])]
      · by_cases hd : el.dataQa = ""
        · rw [if_neg (by simp [hd])]
        · rw [if_pos hd, if_neg h]
    by_cases hn : el.name = ""
    · show getSelector doc el = _
      simp only [getSelector]
      rw [if_neg (by simp [hid]), if_neg (by simp [hn])]
      exact hqa'
    · rcases hname with h | ⟨hcount, hform⟩
      · exact absurd h hn
      · show getSelector doc el = _
        simp only [getSelector]
        rw [if_neg (by simp [hid]), if_pos hn, if_neg hcount]
        rcases hform with hnone | ⟨fi, hfi, hscoped⟩
        · rw [hnone]
          exact hqa'
        · rw [hfi]
          simp only []
          rw [if_neg hscoped]
          exact hqa'
  · intro parent c i
    constructor
    · intro h
      rw [List.countP_eq_length_filter] at h
      simp only [levelSegment]
      rw [if_pos h, List.countP_eq_length_filter]
    · intro h
      rw [List.countP_eq_length_filter] at h
      simp only [levelSegment]
      rw [if_neg (by omega)]

/-- Environment for the C2 witness: every query misses, `CSS.escape` is
the identity (no special characters occur). -/
def docPos : Doc := { body := bodyTree, queryCount := fun _ => 0, cssEscape := fun s => s }

/-- The `<input>` of `bodyTree`, with no usable attributes. -/
def elPos : Elem :=
  { tagName := "INPUT", id := "", name := "", dataQa := "", closestFormIndex := none,
    path := [0, 0] }

/-- C2, witness: the attribute-free input resolves positionally to
`"div > input"` with `fragile = true`, and its `<div>` level — the only
child of its tag — gets a bare-tag segment (P3). -/
theorem steno_C2_witness :
    getSelector docPos elPos = ("div > input", true) ∧
    levelSegment bodyTree 0 (.node "DIV" [.node "INPUT" []]) = "div" :=
  ⟨(steno_C2.1 docPos elPos rfl (Or.inl rfl) (Or.inl rfl)).trans (by decide),
   (steno_C2.2.2.2 bodyTree (.node "DIV" [.node "INPUT" []]) 0).2 (by decide)⟩

/-- A recorded fill step for `#a`. -/
def stepA : RStep :=
  { order := 1, action := "fill", selector := "#a", value := some (.str "v"),
    type := some "text", label := "A", fragile := false }

/-- A recorded fill step for `#b`. -/
def stepB : RStep :=
  { order := 2, action := "fill", selector := "#b", value := some (.str "v"),
    type := some "text", label := "B", fragile := false }

/-- A recorded fill step for `#c`. -/
def stepC : RStep :=
  { order := 3, action := "fill", selector := "#c", value := some (.str "v"),
    type := some "text", label := "C", fragile := false }

/-- A replay session that has just started: no progress reported yet. -/
def freshSession : ReplaySession :=
  { tabId := 1, steps := some [stepA], lastCompletedIndex := -1,
    originHostname := "a.com" }

/-- Coordinator state holding the fresh session. -/
def freshBg : BgState := { replayState := some freshSession, pendingReplayResults := none }

/-- C3, counterexample: an active session (origin `a.com`) receives a
navigation-complete signal for its tab with hostname `b.com`, yet the
listener does nothing — no `aborted` report, session not discarded —
because the guard `if (!steps || lastIdx < 0) return` runs before the
hostname comparison and `lastCompletedIndex` is still `-1`. -/
theorem steno_C3_cex :
    freshBg.replayState.isSome = true ∧
    freshSession.originHostname ≠ "b.com" ∧
    onTabUpdated freshBg 1 true (some "b.com") = (freshBg, .noop) := by
  decide

/-- C3 (amended): for an active replay session whose `steps` is non-null
and whose `lastCompletedIndex` is ≥ 0 (at least one progress signal was
processed), a navigation-complete signal for the session's tab with a
hostname different from `originHostname` sets `aborted = true` on the
accumulated report, appends the explanatory warning, discards the
session, and every subsequent navigation-complete signal for that tab is
a no-op. -/
theorem steno_C3 :
    ∀ (bg : BgState) (rs : ReplaySession) (steps : List RStep) (hn : String),
    bg.replayState = some rs → rs.steps = some steps →
    0 ≤ rs.lastCompletedIndex → hn ≠ rs.originHostname →
    (onTabUpdated bg rs.tabId true (some hn)).1.replayState = none ∧
    (onTabUpdated bg rs.tabId true (some hn)).1.pendingReplayResults =
      some { bg.pendingReplayResults.getD emptyPending with
        aborted := true,
        warnings := (bg.pendingReplayResults.getD emptyPending).warnings ++
          [abortWarning hn] } ∧
    (onTabUpdated bg rs.tabId true (some hn)).2 = .noop ∧
    (∀ (t : Nat) (sc : Bool) (h2 : Option String),
      onTabUpdated (onTabUpdated bg rs.tabId true (some hn)).1 t sc h2 =
        ((onTabUpdated bg rs.tabId true (some hn)).1, .noop)) := by
  intro bg rs steps hn hbg hsteps hidx hdiff
  have habort : onTabUpdated bg rs.tabId true (some hn) =
      ({ replayState := none,
         pendingReplayResults := some
           { bg.pendingReplayResults.getD emptyPending with
             aborted := true,
             warnings := (bg.pendingReplayResults.getD emptyPending).warnings ++
               [abortWarning hn] } }, .noop) := by
    simp only [onTabUpdated, hbg, hsteps]
    rw [if_neg (by simp), if_neg (by simp), if_neg (by omega), if_pos hdiff]
  rw [habort]
  refine ⟨rfl, rfl, rfl, ?_⟩
  intro t sc h2
  rfl

/-- A session that has completed its first step. -/
def progressedSession : ReplaySession :=
  { tabId := 7, steps := some [stepA, stepB], lastCompletedIndex := 0,
    originHostname := "a.com" }

/-- Coordinator state holding the progressed session. -/
def progressedBg : BgState :=
  { replayState := some progressedSession, pendingReplayResults := none }

/-- C3, witness: the abort path on a concrete progressed session, plus a
concrete subsequent signal that is a no-op. -/
theorem steno_C3_witness :
    (onTabUpdated progressedBg 7 true (some "b.com")).1.replayState = none ∧
    (onTabUpdated progressedBg 7 true (some "b.com")).1.pendingReplayResults =
      some { progressedBg.pendingReplayResults.getD emptyPending with
        aborted := true,
        warnings := (progressedBg.pendingReplayResults.getD emptyPending).warnings ++
          [abortWarning "b.com"] } ∧
    (onTabUpdated progressedBg 7 true (some "b.com")).2 = .noop ∧
    onTabUpdated (onTabUpdated progressedBg 7 true (some "b.com")).1 7 true
      (some "c.com") = ((onTabUpdated progressedBg 7 true (some "b.com")).1, .noop) := by
  have h := steno_C3 progressedBg progressedSession [stepA, stepB] "b.com" rfl rfl
    (by decide) (by decide)
  exact ⟨h.1, h.2.1, h.2.2.1, h.2.2.2 7 true (some "c.com")⟩

/-- C4, counterexample: an active session with `lastCompletedIndex = -1`
receives a same-hostname navigation-complete signal; the claimed
`resumeIndex = lastCompletedIndex + 1 = 0` is in range, yet the listener
neither continues the replay nor discards the session — the
`lastIdx < 0` guard returns first. -/
theorem steno_C4_cex :
    freshBg.replayState.isSome = true ∧
    (freshSession.lastCompletedIndex + 1 <
      ((Option.getD freshSession.steps []).length : Int)) ∧
    onTabUpdated freshBg 1 true (some "a.com") = (freshBg, .noop) := by
  decide

/-- C4 (amended): for an active replay session with non-null `steps` and
`lastCompletedIndex ≥ 0`, a same-hostname navigation-complete signal
computes `resumeIndex = lastCompletedIndex + 1`; if `resumeIndex ≥
steps.length` the session is discarded without continuing, otherwise the
listener sends `CONTINUE_REPLAY` with `startIndex = resumeIndex` (and the
session stays active). -/
theorem steno_C4 :
    ∀ (bg : BgState) (rs : ReplaySession) (steps : List RStep),
    bg.replayState = some rs → rs.steps = some steps →
    0 ≤ rs.lastCompletedIndex →
    (((steps.length : Int) ≤ rs.lastCompletedIndex + 1 →
      (onTabUpdated bg rs.tabId true (some rs.originHostname)).1.replayState = none ∧
      (onTabUpdated bg rs.tabId true (some rs.originHostname)).2 = .noop) ∧
    (rs.lastCompletedIndex + 1 < (steps.length : Int) →
      (onTabUpdated bg rs.tabId true (some rs.originHostname)).2 =
        .continueReplay steps (rs.lastCompletedIndex + 1).toNat ∧
      (onTabUpdated bg rs.tabId true (some rs.originHostname)).1.replayState =
        some rs)) := by
  intro bg rs steps hbg hsteps hidx
  constructor
  · intro hdone
    have h : onTabUpdated bg rs.tabId true (some rs.originHostname) =
        ({ bg with replayState := none }, .noop) := by
      simp only [onTabUpdated, hbg, hsteps]
      rw [if_neg (by simp), if_neg (by simp), if_neg (by omega), if_neg (by simp),
        if_pos hdone]
    rw [h]
    exact ⟨rfl, rfl⟩
  · intro hmore
    have h : onTabUpdated bg rs.tabId true (some rs.originHostname) =
        ({ bg with pendingReplayResults := some (bg.pendingReplayResults.getD emptyPending) },
         .continueReplay steps (rs.lastCompletedIndex + 1).toNat) := by
      simp only [onTabUpdated, hbg, hsteps]
      rw [if_neg (by simp), if_neg (by simp), if_neg (by omega), if_neg (by simp),
        if_neg (by omega)]
    rw [h]
    exact ⟨rfl, by rw [hbg]⟩

/-- Ten recorded fill steps with orders 1–10. -/
def tenSteps : List RStep :=
  (List.range 10).map (fun n =>
    { order := n + 1, action := "fill", selector := "#s" ++ toString n,
      value := some (.str "v"), type := some "text", label := "S", fragile := false })

/-- A session over ten steps with `lastCompletedIndex = 4`. -/
def resumeSession : ReplaySession :=
  { tabId := 3, steps := some tenSteps, lastCompletedIndex := 4,
    originHostname := "a.com" }

/-- Coordinator state holding the ten-step session. -/
def resumeBg : BgState :=
  { replayState := some resumeSession, pendingReplayResults := none }

/-- C4, witness (P10): with `lastCompletedIndex = 4` out of 10 steps, a
same-domain navigation continues with `startIndex = 5`. -/
theorem steno_C4_witness :
    (onTabUpdated resumeBg 3 true (some "a.com")).2 =
      .continueReplay tenSteps 5 ∧
    (onTabUpdated resumeBg 3 true (some "a.com")).1.replayState =
      some resumeSession := by
  have h := (steno_C4 resumeBg resumeSession tenSteps rfl rfl (by decide)).2 (by decide)
  exact ⟨h.1, h.2⟩

/-- An oracle under which only the step at sorted position 1 fails to
resolve. -/
def skipFind : Nat → Option PageElem :=
  fun i => if i = 1 then none else some { checked := false }

/-- An oracle under which no selector ever resolves. -/
def noneFind : Nat → Option PageElem := fun _ => none

/-- The fresh results object the replay loop starts from at index 0. -/
def emptyResults : ReplayResults :=
  { filled := 0, clicked := 0, skipped := 0, warnings := [], lastIndex := 0 }

/-- C5: a resolution failure at step `i` adds exactly one `skipped`,
appends exactly one warning (the step's selector and label), records
`lastIndex = i`, and the loop continues with step `i + 1`; globally,
`skipped` equals the number of failing steps, the warning list is exactly
one entry per failing step in order, and the effect trace still contains
every later step's effects — a failure never aborts the sequence.  The
closed instance is P7's shape: of three fill steps, step 2's selector
never resolves, yielding `filled = 2, skipped = 1` and one warning, with
steps 1 and 3 both applied. -/
theorem steno_C5 :
    (∀ (find : Nat → Option PageElem) (sorted : List RStep) (fuel i : Nat)
      (res : ReplayResults) (eff : List Effect),
      i < sorted.length → find i = none →
      replayLoop find sorted (fuel + 1) i res eff =
      replayLoop find sorted fuel (i + 1)
        { res with skipped := res.skipped + 1,
                   warnings := res.warnings ++ [warnOf (sorted.getD i dflStep)],
                   lastIndex := i } eff) ∧
    (∀ (find : Nat → Option PageElem) (fields : List RStep) (start : Nat),
      (replayScript find fields start).1.skipped =
        (List.range' start ((sortSteps fields).length - start) 1).countP
          (fun j => (find j).isNone) ∧
      (replayScript find fields start).1.warnings =
        (List.range' start ((sortSteps fields).length - start) 1).filterMap
          (failWarn find (sortSteps fields)) ∧
      (replayScript find fields start).2 =
        catMap (stepBlock find (sortSteps fields))
          (List.range' start ((sortSteps fields).length - start) 1)) ∧
    ((replayScript skipFind [stepA, stepB, stepC] 0).1 =
      { filled := 2, clicked := 0, skipped := 1, warnings := ["#b (B)"],
        lastIndex := 2 }) := by
  refine ⟨replayLoop_skip, ?_, by decide⟩
  intro find fields start
  have hscript : replayScript find fields start =
      replayLoop find (sortSteps fields) (sortSteps fields).length start
        { filled := 0, clicked := 0, skipped := 0, warnings := [], lastIndex := start }
        [] := rfl
  rw [hscript, replayLoop_eq find (sortSteps fields) (sortSteps fields).length start _ []
    (Nat.sub_le _ _)]
  simp

/-- C5, witness: one failing step unfolds to the skip-and-continue form. -/
theorem steno_C5_witness :
    replayLoop noneFind [stepA] 1 0 emptyResults [] =
    replayLoop noneFind [stepA] 0 1
      { emptyResults with skipped := emptyResults.skipped + 1,
                          warnings := emptyResults.warnings ++
                            [warnOf ([stepA].getD 0 dflStep)],
                          lastIndex := 0 } [] :=
  steno_C5.1 noneFind [stepA] 0 0 emptyResults [] (by decide) rfl

/-- Environment for C6's witness: `CSS.escape` as the identity (the id
contains no characters needing escapes) and all queries missing. -/
def docW : Doc := { body := bodyTree, queryCount := fun _ => 0, cssEscape := fun s => s }

/-- An element carrying an id, a name and a data-qa attribute at once. -/
def elW : Elem :=
  { tagName := "INPUT", id := "email", name := "user", dataQa := "qa",
    closestFormIndex := none, path := [] }

/-- C6: for every element with a non-empty `id`, `getSelector` returns
`#<escaped-id>` with `fragile = false`, whatever the `name` and `data-qa`
attributes hold — the id tier always wins. -/
theorem steno_C6 :
    ∀ (doc : Doc) (el : Elem), el.id ≠ "" →
    getSelector doc el = ("#" ++ doc.cssEscape el.id, false) := by
  intro doc el h
  simp only [getSelector]
  rw [if_pos h]

/-- C6, witness: an element with `id`, `name` and `data-qa` all set
resolves to the `#id` form. -/
theorem steno_C6_witness :
    elW.name ≠ "" ∧ elW.dataQa ≠ "" ∧ getSelector docW elW = ("#email", false) :=
  ⟨by decide, by decide, (steno_C6 docW elW (by decide)).trans (by decide)⟩

/-- A recorded checkbox fill step. -/
def cbStep (sel : String) (b : Bool) (lbl : String) : RStep :=
  { order := 1, action := "fill", selector := sel, value := some (.bool b),
    type := some "checkbox", label := lbl, fragile := false }

/-- C7: replaying a checkbox fill against an element already in the
target state performs no assignment and dispatches no `change`/`input`
event, yet the loop still counts the step as `filled`; when the states
differ, the engine sets `checked` and dispatches `change` then `input`,
both bubbling. -/
theorem steno_C7 :
    ∀ (el : PageElem) (b : Bool),
    (el.checked = b →
      setValueEffects el (some (.bool b)) (some "checkbox") = []) ∧
    (el.checked ≠ b →
      setValueEffects el (some (.bool b)) (some "checkbox") =
        [.assignChecked (some (.bool b)), .dispatch "change" true,
         .dispatch "input" true]) ∧
    (∀ (find : Nat → Option PageElem) (sel lbl : String),
      find 0 = some el → el.checked = b →
      replayScript find [cbStep sel b lbl] 0 =
        ({ filled := 1, clicked := 0, skipped := 0, warnings := [], lastIndex := 0 },
         [.settle 150])) := by
  intro el b
  refine ⟨?_, ?_, ?_⟩
  · intro h
    simp [setValueEffects, strictEqBoolVal, h]
  · intro h
    simp [setValueEffects, strictEqBoolVal, h]
  · intro find sel lbl hf hc
    show replayLoop find [cbStep sel b lbl] 1 0
      { filled := 0, clicked := 0, skipped := 0, warnings := [], lastIndex := 0 } [] = _
    rw [replayLoop_fill find [cbStep sel b lbl] 0 0 _ [] el Nat.one_pos hf
      Bool.false_ne_true]
    have hsve : setValueEffects el (some (.bool b)) (some "checkbox") = [] := by
      simp [setValueEffects, strictEqBoolVal, hc]
    show ((⟨1, 0, 0, [], 0⟩ : ReplayResults),
      [] ++ (setValueEffects el (some (.bool b)) (some "checkbox") ++ [.settle 150])) = _
    rw [hsve]
    rfl

/-- C7, witness: the no-op branch and the one-step replay on a checkbox
already in the target state. -/
theorem steno_C7_witness :
    setValueEffects { checked := true } (some (.bool true)) (some "checkbox") = [] ∧
    replayScript (fun _ => some { checked := true }) [cbStep "#cb" true "CB"] 0 =
      ({ filled := 1, clicked := 0, skipped := 0, warnings := [], lastIndex := 0 },
       [.settle 150]) :=
  ⟨(steno_C7 { checked := true } true).1 rfl,
   (steno_C7 { checked := true } true).2.2 (fun _ => some { checked := true })
     "#cb" "CB" rfl rfl⟩

/-- C8: in every trace the replay engine can produce, each click at
sorted position `i` is strictly preceded by the `REPLAY_PROGRESS` report
carrying `lastCompletedIndex = i` — the engine never performs a click
whose index was not already reported. -/
theorem steno_C8 :
    ∀ (find : Nat → Option PageElem) (fields : List RStep) (start : Nat),
    EveryClickPreceded (replayScript find fields start).2 := by
  intro find fields start
  have hscript : replayScript find fields start =
      replayLoop find (sortSteps fields) (sortSteps fields).length start
        { filled := 0, clicked := 0, skipped := 0, warnings := [], lastIndex := start }
        [] := rfl
  have htr : (replayScript find fields start).2 =
      catMap (stepBlock find (sortSteps fields))
        (List.range' start ((sortSteps fields).length - start) 1) := by
    rw [hscript, replayLoop_eq find (sortSteps fields) (sortSteps fields).length start _
      [] (Nat.sub_le _ _)]
    simp
  intro p j hp
  rw [htr] at hp
  have hchk := checkClicks_catMap find (sortSteps fields)
    (List.range' start ((sortSteps fields).length - start) 1) []
  rcases checkClicks_sound _ [] hchk p j hp with hm | ⟨q, hq, hget⟩
  · simp at hm
  · rw [htr]
    exact ⟨q, hq, hget⟩

/-- A recorded click step. -/
def clickStep1 : RStep :=
  { order := 1, action := "click", selector := "#btn", value := none,
    type := none, label := "Go", fragile := false }

/-- C8, witness: the property on a concrete one-click replay. -/
theorem steno_C8_witness :
    EveryClickPreceded
      (replayScript (fun _ => some { checked := false }) [clickStep1] 0).2 :=
  steno_C8 (fun _ => some { checked := false }) [clickStep1] 0

/-- C9: a `waitForElement` run settles once the timeout fires — whatever
finite batch of mutation callbacks the event loop delivers, after the
timeout the promise is resolved (to the element if one was found, else to
null) — and on every exit path, found or timed out, the observer is
disconnected. -/
theorem steno_C9 :
    ∀ (q : Option PageElem) (evs : List WaitEvt),
    ((waitRun q evs).outcome.isSome = true →
      (waitRun q evs).observerConnected = false) ∧
    (WaitEvt.timeout ∈ evs →
      (waitRun q evs).outcome.isSome = true ∧
      (waitRun q evs).observerConnected = false) := by
  intro q evs
  constructor
  · intro h
    exact (waitInv_foldl (waitInit q) evs (waitInv_init q)).1 h
  · intro hmem
    rcases List.append_of_mem hmem with ⟨pre, post, rfl⟩
    have hrun : waitRun q (pre ++ WaitEvt.timeout :: post) =
        post.foldl waitStep
          (waitStep (pre.foldl waitStep (waitInit q)) WaitEvt.timeout) := by
      show (pre ++ WaitEvt.timeout :: post).foldl waitStep (waitInit q) = _
      rw [List.foldl_append, List.foldl_cons]
    rw [hrun]
    have hinv := waitInv_foldl (waitInit q) pre (waitInv_init q)
    obtain ⟨g1, g2⟩ := waitTimeout_settles (pre.foldl waitStep (waitInit q)) hinv
    exact waitSettled_foldl _ post g1 g2

/-- C9, witness: a run with one fruitless mutation batch and then the
timeout resolves to null with the observer disconnected. -/
theorem steno_C9_witness :
    (waitRun none [WaitEvt.mutation none, WaitEvt.timeout]).outcome.isSome = true ∧
    (waitRun none [WaitEvt.mutation none, WaitEvt.timeout]).observerConnected = false :=
  (steno_C9 none [WaitEvt.mutation none, WaitEvt.timeout]).2 (by decide)

/-- C10: replay leaves the caller's array untouched — the store entry the
caller passed is unchanged, the engine allocates one fresh copy, and the
sort is applied to that copy only; the loop itself takes no store at all
because it never writes a step field. -/
theorem steno_C10 :
    ∀ (store : List (List RStep)) (r : Nat) (find : Nat → Option PageElem)
      (start : Nat), r < store.length →
    (replayScriptStore store r find start).1.getD r [] = store.getD r [] ∧
    (replayScriptStore store r find start).1.length = store.length + 1 ∧
    (replayScriptStore store r find start).1.getD store.length [] =
      sortSteps (store.getD r []) := by
  intro store r find start hr
  simp only [replayScriptStore]
  rw [getD_append_last, set_append_last]
  refine ⟨getD_append_lt store _ [] r hr, by simp, getD_append_last store _ []⟩

/-- C10, witness: a two-step store entry is returned unchanged while the
copy is sorted. -/
theorem steno_C10_witness :
    (replayScriptStore [[stepB, stepA]] 0 noneFind 0).1.getD 0 [] =
      [[stepB, stepA]].getD 0 [] ∧
    (replayScriptStore [[stepB, stepA]] 0 noneFind 0).1.length =
      [[stepB, stepA]].length + 1 ∧
    (replayScriptStore [[stepB, stepA]] 0 noneFind 0).1.getD 1 [] =
      sortSteps ([[stepB, stepA]].getD 0 []) :=
  steno_C10 [[stepB, stepA]] 0 noneFind 0 (by decide)
